import Mathlib

/-!
Verification of the Real-Time-Attendance-System repository.

The Python pages are shallowly embedded here:
* Python strings are modelled as their sequence of Unicode code points
  (`PyStr := List Nat`); `strip`, `lower`, `replace`, `split` and `rsplit`
  are modelled character-wise, faithfully for the ASCII data the system
  handles (`lower` maps only the 26 ASCII capitals).
* The SQLite tables `attendance` and `students` are modelled as lists of
  records together with the next AUTOINCREMENT id; each SQL statement used
  by the code is modelled by an explicit function on these tables.
* The `encodings/` directory of `.npy` files is a list of
  (file stem, stored array) pairs; embedding vectors themselves are opaque
  (`Vec := List Int`), since the recognition library is out of scope.
* `face_recognition.face_distance` is out of scope (external library), so
  the recognition loop's per-face classification is modelled as a function
  of the list of distances it returns, as rational numbers.
-/

namespace Attendance

/-- Python strings, modelled as their sequence of Unicode code points. -/
abbrev PyStr := List Nat

/-- Code points of a Lean string literal, for writing concrete inputs. -/
def strCodes (s : String) : PyStr := s.data.map Char.toNat

/-- Python `str.strip`/`str.split` whitespace test, for the ASCII range:
space, tab, newline, carriage return, vertical tab, form feed. -/
def isSpaceCode (n : Nat) : Bool :=
  decide (n = 32 ∨ n = 9 ∨ n = 10 ∨ n = 13 ∨ n = 11 ∨ n = 12)

/-- Python `str.lower` on one code point (ASCII letters only). -/
def pyLowerCode (n : Nat) : Nat :=
  if 65 ≤ n ∧ n ≤ 90 then n + 32 else n

/-- Python `str.lower`. -/
def pyLower (s : PyStr) : PyStr := s.map pyLowerCode

/-- Python `str.strip()`: remove leading and trailing whitespace. -/
def pyStrip (s : PyStr) : PyStr :=
  List.rdropWhile isSpaceCode (s.dropWhile isSpaceCode)

/-- Python `str.replace(a, b)` for single-character `a`, `b`. -/
def replaceCode (a b : Nat) (s : PyStr) : PyStr :=
  s.map (fun c => if c = a then b else c)

/-- Helper for `pySplit`: accumulates the current word reversed. -/
def pySplitAux : PyStr → PyStr → List PyStr
  | [], acc => if acc = [] then [] else [acc.reverse]
  | c :: cs, acc =>
    if isSpaceCode c then
      (if acc = [] then pySplitAux cs [] else acc.reverse :: pySplitAux cs [])
    else pySplitAux cs (c :: acc)

/-- Python `str.split()` with no argument: split on whitespace runs,
discarding empty tokens. -/
def pySplit (s : PyStr) : List PyStr := pySplitAux s []

/-- Python `s.rsplit(sep, 1)` when `sep` occurs in `s`: the part before the
last occurrence and the part after it; `none` when `sep` does not occur
(where the Python tuple unpacking in the loader would raise). -/
def rsplitLast (sep : Nat) : PyStr → Option (PyStr × PyStr)
  | [] => none
  | c :: cs =>
    match rsplitLast sep cs with
    | some (a, b) => some (c :: a, b)
    | none => if c = sep then some ([], cs) else none

/-- Code point of the space character. -/
def spaceCode : Nat := 32

/-- Code point of the underscore character. -/
def underscoreCode : Nat := 95

/-- `normalize_folder_name` from `2_Student Management.py`:
`name.strip().lower().replace(" ", "_") + "_" + reg_no.strip().lower()`. -/
def normalize_folder_name (name reg_no : PyStr) : PyStr :=
  replaceCode spaceCode underscoreCode (pyLower (pyStrip name))
    ++ [underscoreCode] ++ pyLower (pyStrip reg_no)

/-- The decoding performed by `load_known_faces` in
`1_Capture Attendance.py` on a stored file stem:
`name_part, reg_no = stem.rsplit("_", 1)` followed by
`name_part.replace("_", " ").strip().lower()`. -/
def decodeFolderName (stem : PyStr) : Option (PyStr × PyStr) :=
  match rsplitLast underscoreCode stem with
  | some (name_part, reg_no) =>
      some (pyLower (pyStrip (replaceCode underscoreCode spaceCode name_part)), reg_no)
  | none => none

/-! ## The relational store -/

/-- One row of the `attendance` table. -/
structure AttRecord where
  id : Nat
  full_name : PyStr
  reg_no : PyStr
  date : PyStr
  time : PyStr
  status : PyStr
deriving DecidableEq

/-- The `attendance` table: its rows plus the next AUTOINCREMENT id. -/
structure AttTable where
  rows : List AttRecord
  nextId : Nat
deriving DecidableEq

/-- The freshly created (empty) `attendance` table. -/
def emptyTable : AttTable := ⟨[], 1⟩

/-- The status literal "Present". -/
def PRESENT : PyStr := strCodes "Present"

/-- The status literal "Absent". -/
def ABSENT : PyStr := strCodes "Absent"

/-- The sentinel time "-" used for synthesized Absent records. -/
def SENTINEL_TIME : PyStr := strCodes "-"

/-- `SELECT * FROM attendance WHERE full_name = ? AND date = ?` followed by
`fetchone()` being non-empty. -/
def hasRecordFor (t : AttTable) (name today : PyStr) : Bool :=
  t.rows.any (fun r => r.full_name == name && r.date == today)

/-- `INSERT INTO attendance (full_name, reg_no, date, time, status)`. -/
def insertAttendance (t : AttTable) (name reg date time status : PyStr) : AttTable :=
  ⟨t.rows ++ [⟨t.nextId, name, reg, date, time, status⟩], t.nextId + 1⟩

/-! ## Email notification -/

/-- Outcome of the notification step of one `mark_attendance` call. -/
inductive EmailResult where
  | notAttempted
  | skippedNoCreds
  | sent
  | failed
deriving DecidableEq

/-- The `EMAIL_SENDER` / `EMAIL_APP_PASSWORD` configuration read from the
environment; `none` models an unset variable. -/
structure EmailCfg where
  sender : Option PyStr
  app_password : Option PyStr
deriving DecidableEq

/-- Python truthiness of an optional string: unset and empty are falsy. -/
def truthy : Option PyStr → Bool
  | none => false
  | some s => !s.isEmpty

/-- `send_attendance_email` from `1_Capture Attendance.py`; `deliveryOk`
models whether the SMTP exchange raises. -/
def send_attendance_email (cfg : EmailCfg) (deliveryOk : Bool) : EmailResult :=
  if !truthy cfg.sender || !truthy cfg.app_password then .skippedNoCreds
  else if deliveryOk then .sent else .failed

/-- `mark_attendance` from `1_Capture Attendance.py`: check-then-insert of
one Present record, then the best-effort email. Returns the new table and
the notification outcome. -/
def mark_attendance (cfg : EmailCfg) (deliveryOk : Bool) (today now : PyStr)
    (t : AttTable) (full_name reg_no : PyStr) : AttTable × EmailResult :=
  if hasRecordFor t full_name today then (t, .notAttempted)
  else (insertAttendance t full_name reg_no today now PRESENT,
        send_attendance_email cfg deliveryOk)

/-! ## Student registry and encoding store -/

/-- One row of the `students` table. -/
structure Student where
  id : Nat
  full_name : PyStr
  reg_no : PyStr
  folder_name : PyStr
  image_count : Nat
  registration_date : PyStr
deriving DecidableEq

/-- The `students` table: its rows plus the next AUTOINCREMENT id;
`reg_no` carries a UNIQUE constraint. -/
structure StudentTable where
  rows : List Student
  nextId : Nat
deriving DecidableEq

/-- `INSERT OR REPLACE INTO students (full_name, reg_no, folder_name,
image_count, registration_date)`: any row conflicting on the UNIQUE
`reg_no` is deleted and a fresh row (with a fresh id) is inserted. -/
def insertOrReplaceStudent (t : StudentTable) (full_name reg_no folder_name : PyStr)
    (image_count : Nat) (registration_date : PyStr) : StudentTable :=
  ⟨t.rows.filter (fun s => !(s.reg_no == reg_no))
      ++ [⟨t.nextId, full_name, reg_no, folder_name, image_count, registration_date⟩],
   t.nextId + 1⟩

/-- An embedding vector; its contents are produced by the external
recognition library and are opaque to all the logic verified here. -/
abbrev Vec := List Int

/-- The `encodings/` directory: one `.npy` file per stem, holding the
stored array of vectors. -/
structure EncStore where
  files : List (PyStr × List Vec)
deriving DecidableEq

/-- `os.path.exists` plus `np.load` for the stem's `.npy` file. -/
def encLookup (e : EncStore) (k : PyStr) : Option (List Vec) :=
  (e.files.find? (fun p => p.1 == k)).map (·.2)

/-- `np.save` for the stem's `.npy` file (overwrite or create). -/
def encSave (e : EncStore) (k : PyStr) (v : List Vec) : EncStore :=
  if (e.files.find? (fun p => p.1 == k)).isSome then
    ⟨e.files.map (fun p => if p.1 == k then (k, v) else p)⟩
  else ⟨e.files ++ [(k, v)]⟩

/-! ## Enrollment (`2_Student Management.py`) -/

/-- `name_valid` from `2_Student Management.py`:
`len(student_name.strip().split()) == 3 if student_name else False`. -/
def name_valid (student_name : PyStr) : Bool :=
  if student_name = [] then false
  else (pySplit (pyStrip student_name)).length == 3

/-- The `allow_capture` guard of `2_Student Management.py`: capture is
offered only for a valid 3-part name, a non-empty registration number, and
either an unused registration number or a matching existing name that the
operator confirmed (`st.session_state.allow_capture`). -/
def allow_capture (students : StudentTable) (student_name registration_number : PyStr)
    (session_allow : Bool) : Bool :=
  !student_name.isEmpty && !registration_number.isEmpty && name_valid student_name &&
    (match students.rows.find? (fun s => s.reg_no == registration_number) with
     | none => true
     | some row =>
        (pyLower (pyStrip row.full_name) == pyLower (pyStrip student_name)) && session_allow)

/-- Result of one enrollment attempt: the stores afterwards and whether the
page reported a successful registration. -/
structure EnrollResult where
  enc : EncStore
  students : StudentTable
  success : Bool
deriving DecidableEq

/-- The capture-save path of `2_Student Management.py`: the `allow_capture`
guard, then — given the list of encodings the session accepted — the
"no encodings" failure branch, or appending to the stem's `.npy` file and
the `INSERT OR REPLACE` upsert with `image_count = previous + accepted`.
`registration_number` is the text input after its `.strip()`. -/
def enroll (enc : EncStore) (students : StudentTable)
    (student_name registration_number : PyStr) (session_allow : Bool)
    (new_encodings : List Vec) (today : PyStr) : EnrollResult :=
  if !(allow_capture students student_name registration_number session_allow) then
    ⟨enc, students, false⟩
  else if new_encodings.isEmpty then ⟨enc, students, false⟩
  else
    let folder_name := normalize_folder_name student_name registration_number
    let combined :=
      match encLookup enc folder_name with
      | some old => old ++ new_encodings
      | none => new_encodings
    let previous_count :=
      match students.rows.find? (fun s => s.reg_no == registration_number) with
      | some row => row.image_count
      | none => 0
    ⟨encSave enc folder_name combined,
     insertOrReplaceStudent students (pyLower (pyStrip student_name))
       registration_number folder_name (previous_count + new_encodings.length) today,
     true⟩

/-! ## Today's report: Absent-record synthesis (`1_Capture Attendance.py`) -/

/-- Lexicographic comparison of code-point strings, as Python `sorted` uses. -/
def pyStrLe : PyStr → PyStr → Bool
  | [], _ => true
  | _ :: _, [] => false
  | x :: xs, y :: ys => if x < y then true else if y < x then false else pyStrLe xs ys

/-- Python `sorted` on a list of strings. -/
def sortNames (l : List PyStr) : List PyStr :=
  l.insertionSort (fun a b => pyStrLe a b = true)

/-- `get_registered_students`: `SELECT full_name FROM students`, sorted. -/
def get_registered_students (students : StudentTable) : List PyStr :=
  sortNames (students.rows.map (·.full_name))

/-- `get_today_present`: `SELECT DISTINCT full_name FROM attendance WHERE
date = ? AND status = 'Present'`, sorted. -/
def get_today_present (t : AttTable) (today : PyStr) : List PyStr :=
  sortNames ((t.rows.filter (fun r => r.date == today && r.status == PRESENT)).map
      (·.full_name)).dedup

/-- `sorted(list(set(all_students) - set(present_today)))`. -/
def absent_students (students : StudentTable) (t : AttTable) (today : PyStr) : List PyStr :=
  sortNames ((get_registered_students students).dedup.filter
      (fun n => !(get_today_present t today).contains n))

/-- `SELECT reg_no FROM students WHERE full_name = ?` with the "UNKNOWN"
fallback of the report loop. -/
def regLookup (students : StudentTable) (name : PyStr) : PyStr :=
  match students.rows.find? (fun s => s.full_name == name) with
  | some s => s.reg_no
  | none => strCodes "UNKNOWN"

/-- One iteration of the report's absent loop: check for any record of
(name, today) and insert a sentinel-time Absent record when none exists. -/
def absentStep (students : StudentTable) (today : PyStr) (acc : AttTable) (name : PyStr) :
    AttTable :=
  if hasRecordFor acc name today then acc
  else insertAttendance acc name (regLookup students name) today SENTINEL_TIME ABSENT

/-- The "View Today's Attendance Report" action: synthesize an Absent
record for every registered student without any record for today. -/
def todays_report (students : StudentTable) (today : PyStr) (t : AttTable) : AttTable :=
  (absent_students students t today).foldl (absentStep students today) t

/-! ## Status toggle and the records page's save (`3_Attendance Records.py`) -/

/-- `toggle_status`: `UPDATE attendance SET status = ? WHERE id = ?` with
the flipped status computed from the displayed one. -/
def toggle_status (t : AttTable) (record_id : Nat) (current_status : PyStr) : AttTable :=
  let new_status := if current_status = PRESENT then ABSENT else PRESENT
  ⟨t.rows.map (fun r => if r.id = record_id then { r with status := new_status } else r),
   t.nextId⟩

/-- One row of the edited view handed back by the data editor; `id = none`
models a freshly added row (`pd.isna(row["id"])`). -/
structure EditedRow where
  id : Option Nat
  full_name : PyStr
  reg_no : PyStr
  date : PyStr
  time : PyStr
  status : PyStr
deriving DecidableEq

/-- Result of the Save Changes handler: the table afterwards and how many
DELETE, UPDATE and INSERT statements were executed. -/
structure SaveResult where
  table : AttTable
  deletes : Nat
  updates : Nat
  inserts : Nat
deriving DecidableEq

/-- One iteration of the save handler's insert-or-update loop. -/
def applyEditedRow (t : AttTable) (row : EditedRow) : AttTable :=
  match row.id with
  | none => insertAttendance t row.full_name row.reg_no row.date row.time row.status
  | some i =>
      ⟨t.rows.map (fun r =>
          if r.id = i then
            { r with full_name := row.full_name, reg_no := row.reg_no,
                     date := row.date, time := row.time, status := row.status }
          else r),
       t.nextId⟩

/-- The Save Changes handler of `3_Attendance Records.py`: delete the ids
present in the original filtered view but absent from the edited view,
then insert rows without an id and update rows with one. -/
def save_changes (original_visible_ids : List Nat) (current : List EditedRow)
    (t : AttTable) : SaveResult :=
  let ids_after := current.filterMap (·.id)
  let deleted_ids := original_visible_ids.dedup.filter (fun i => !ids_after.contains i)
  let t1 : AttTable := ⟨t.rows.filter (fun r => !deleted_ids.contains r.id), t.nextId⟩
  ⟨current.foldl applyEditedRow t1,
   deleted_ids.length,
   (current.filter (fun r => r.id.isSome)).length,
   (current.filter (fun r => r.id.isNone)).length⟩

/-! ## Recognition-loop classification (`1_Capture Attendance.py`) -/

/-- `np.argmin` loop state: the running (best value, best index) pair. -/
def argminGo : List ℚ → ℚ × Nat → Nat → ℚ × Nat
  | [], best, _ => best
  | d :: ds, best, i => if d < best.1 then argminGo ds (d, i) (i + 1) else argminGo ds best (i + 1)

/-- `np.argmin`: index of the first minimum (0 on the empty list, where
numpy would raise; the page guards against empty known encodings). -/
def argmin : List ℚ → Nat
  | [] => 0
  | d :: ds => (argminGo ds (d, 0) 1).2

/-- Minimum of a list of distances (0 on the empty list). -/
def listMin : List ℚ → ℚ
  | [] => 0
  | d :: ds => ds.foldl min d

/-- The fixed recognition threshold of the loop (`0.4`). -/
def THRESHOLD : ℚ := 2 / 5

/-- Per-face classification of the recognition loop: given the distances
to all known embeddings (as returned by `face_distance`), take
`best_match_index = np.argmin(distances)` and accept the match iff
`distances[best_match_index] < 0.4`; otherwise the label is "Unknown"
(`none`). On a match the loop uses `known_names[best_match_index]`. -/
def classifyFace (known_names : List PyStr) (distances : List ℚ) : Option PyStr :=
  let best := argmin distances
  if distances.getD best 0 < THRESHOLD then some (known_names.getD best []) else none

/-! ## Reachable attendance states -/

/-- One write operation on the `attendance` table, as the system's pages
can issue it: recognition's `mark_attendance`, the report's Absent
synthesis, the status toggle, and the records page's Save Changes. -/
inductive Step : AttTable → AttTable → Prop where
  | mark (cfg : EmailCfg) (ok : Bool) (today now name reg : PyStr) (t : AttTable) :
      Step t (mark_attendance cfg ok today now t name reg).1
  | report (students : StudentTable) (today : PyStr) (t : AttTable) :
      Step t (todays_report students today t)
  | toggle (i : Nat) (status : PyStr) (t : AttTable) :
      Step t (toggle_status t i status)
  | editSave (origIds : List Nat) (current : List EditedRow) (t : AttTable) :
      Step t (save_changes origIds current t).table

/-- Attendance-table states reachable from the empty table by any sequence
of the system's write operations. -/
def Reachable (t : AttTable) : Prop :=
  Relation.ReflTransGen Step emptyTable t

/-- The write operations excluding the records page's Save Changes. -/
inductive StepSafe : AttTable → AttTable → Prop where
  | mark (cfg : EmailCfg) (ok : Bool) (today now name reg : PyStr) (t : AttTable) :
      StepSafe t (mark_attendance cfg ok today now t name reg).1
  | report (students : StudentTable) (today : PyStr) (t : AttTable) :
      StepSafe t (todays_report students today t)
  | toggle (i : Nat) (status : PyStr) (t : AttTable) :
      StepSafe t (toggle_status t i status)

/-- States reachable from the empty table without the Save Changes path. -/
def ReachableSafe (t : AttTable) : Prop :=
  Relation.ReflTransGen StepSafe emptyTable t

/-- Number of records of the table for a given (full name, date) pair. -/
def pairCount (t : AttTable) (name d : PyStr) : Nat :=
  (t.rows.filter (fun r => r.full_name == name && r.date == d)).length

/-- Number of Present records of the table for a given (full name, date). -/
def presentCount (t : AttTable) (name d : PyStr) : Nat :=
  ((t.rows.filter (fun r => r.full_name == name && r.date == d)).filter
      (fun r => r.status == PRESENT)).length

/-- States that every (full name, date) pair has at most one record. -/
def atMostOnePerDay (t : AttTable) : Prop :=
  ∀ name d, pairCount t name d ≤ 1

/-! ## Concrete inputs used for counterexamples and witnesses -/

/-- A data-editor row adding a Present record for x on 2025-01-01. -/
def dupPresentRow (tm : String) : EditedRow :=
  ⟨none, strCodes "x", strCodes "1", strCodes "2025-01-01", strCodes tm, PRESENT⟩

/-- A three-record attendance table (ids 1, 2, 3) for one day. -/
def threeRowTable : AttTable :=
  ⟨[⟨1, strCodes "a", strCodes "r1", strCodes "2025-06-01", strCodes "08:00:00", PRESENT⟩,
    ⟨2, strCodes "b", strCodes "r2", strCodes "2025-06-01", strCodes "08:01:00", PRESENT⟩,
    ⟨3, strCodes "c", strCodes "r3", strCodes "2025-06-01", strCodes "-", ABSENT⟩], 4⟩

/-- The edited view of `threeRowTable`: row 1 deleted, row 2's status
edited to Absent, row 3 unchanged. -/
def threeRowEdited : List EditedRow :=
  [⟨some 2, strCodes "b", strCodes "r2", strCodes "2025-06-01", strCodes "08:01:00", ABSENT⟩,
   ⟨some 3, strCodes "c", strCodes "r3", strCodes "2025-06-01", strCodes "-", ABSENT⟩]

/-- A registry with one student enrolled on 2025-01-01 with 3 images. -/
def oneStudentRegistry : StudentTable :=
  ⟨[⟨1, strCodes "a b c", strCodes "r1", strCodes "a_b_c_r1", 3, strCodes "2025-01-01"⟩], 2⟩

/-- The encoding store matching `oneStudentRegistry` (3 stored vectors). -/
def oneStudentEnc : EncStore := ⟨[(strCodes "a_b_c_r1", [[1], [2], [3]])]⟩

/-- A two-student registry (distinct names a and b). -/
def twoStudentRegistry : StudentTable :=
  ⟨[⟨1, strCodes "a", strCodes "r1", strCodes "a_r1", 3, strCodes "2025-01-01"⟩,
    ⟨2, strCodes "b", strCodes "r2", strCodes "b_r2", 2, strCodes "2025-01-02"⟩], 3⟩

/-- An attendance table where only student a is Present on 2025-06-01. -/
def onePresentTable : AttTable :=
  ⟨[⟨1, strCodes "a", strCodes "r1", strCodes "2025-06-01", strCodes "08:00:00", PRESENT⟩], 2⟩

/-- An attendance table holding only a synthesized Absent record for x. -/
def oneAbsentTable : AttTable :=
  ⟨[⟨1, strCodes "x", strCodes "r", strCodes "2025-06-01", SENTINEL_TIME, ABSENT⟩], 2⟩

/-- The Absent record of `oneAbsentTable`. -/
def oneAbsentRecord : AttRecord :=
  ⟨1, strCodes "x", strCodes "r", strCodes "2025-06-01", SENTINEL_TIME, ABSENT⟩

/-- A configured email sender/password pair. -/
def someCfg : EmailCfg := ⟨some (strCodes "sender@host"), some (strCodes "pw")⟩

/-! ## Basic lemmas about the attendance table -/

theorem hasRecordFor_iff (t : AttTable) (name today : PyStr) :
    hasRecordFor t name today = true ↔
      ∃ r ∈ t.rows, r.full_name = name ∧ r.date = today := by
  simp [hasRecordFor, List.any_eq_true]

theorem hasRecordFor_of_mem {t : AttTable} {r : AttRecord} {name today : PyStr}
    (hr : r ∈ t.rows) (hn : r.full_name = name) (hd : r.date = today) :
    hasRecordFor t name today = true :=
  (hasRecordFor_iff t name today).mpr ⟨r, hr, hn, hd⟩

theorem pairCount_eq_zero_of_hasRecordFor_false {t : AttTable} {name d : PyStr}
    (h : hasRecordFor t name d = false) : pairCount t name d = 0 := by
  unfold pairCount
  rw [List.length_eq_zero, List.filter_eq_nil_iff]
  intro r hr hpred
  rw [hasRecordFor, List.any_eq_false] at h
  exact h r hr hpred

theorem pairCount_insertAttendance (t : AttTable) (nm rg dt tm stt name d : PyStr) :
    pairCount (insertAttendance t nm rg dt tm stt) name d =
      pairCount t name d + (if nm = name ∧ dt = d then 1 else 0) := by
  unfold pairCount insertAttendance
  rw [List.filter_append, List.length_append]
  congr 1
  by_cases h : nm = name ∧ dt = d
  · simp [h.1, h.2]
  · rw [if_neg h]
    simp only [List.filter, Bool.and_eq_true, beq_iff_eq]
    rw [List.length_eq_zero]
    split
    · next heq => exact absurd (by simpa [Bool.and_eq_true] using heq) h
    · rfl

theorem hasRecordFor_insertAttendance (t : AttTable) (nm rg dt tm stt name d : PyStr) :
    hasRecordFor (insertAttendance t nm rg dt tm stt) name d =
      (hasRecordFor t name d || (nm == name && dt == d)) := by
  unfold hasRecordFor insertAttendance
  rw [List.any_append]
  simp

/-! ## Preservation of the per-day uniqueness invariant -/

theorem atMostOnePerDay_empty : atMostOnePerDay emptyTable := by
  intro name d
  simp [pairCount, emptyTable]

theorem atMostOnePerDay_insert_unseen {t : AttTable} {nm dt : PyStr}
    (hinv : atMostOnePerDay t) (hnew : hasRecordFor t nm dt = false)
    (rg tm stt : PyStr) :
    atMostOnePerDay (insertAttendance t nm rg dt tm stt) := by
  intro name d
  rw [pairCount_insertAttendance]
  by_cases h : nm = name ∧ dt = d
  · rw [if_pos h, ← h.1, ← h.2,
      pairCount_eq_zero_of_hasRecordFor_false hnew]
  · rw [if_neg h, Nat.add_zero]
    exact hinv name d

theorem atMostOnePerDay_mark {t : AttTable} (hinv : atMostOnePerDay t)
    (cfg : EmailCfg) (ok : Bool) (today now name reg : PyStr) :
    atMostOnePerDay (mark_attendance cfg ok today now t name reg).1 := by
  unfold mark_attendance
  by_cases h : hasRecordFor t name today = true
  · rw [if_pos h]; exact hinv
  · rw [if_neg h]
    exact atMostOnePerDay_insert_unseen hinv (Bool.eq_false_iff.mpr h) reg now PRESENT

theorem atMostOnePerDay_absentStep {acc : AttTable} (hinv : atMostOnePerDay acc)
    (students : StudentTable) (today name : PyStr) :
    atMostOnePerDay (absentStep students today acc name) := by
  unfold absentStep
  by_cases h : hasRecordFor acc name today = true
  · rw [if_pos h]; exact hinv
  · rw [if_neg h]
    exact atMostOnePerDay_insert_unseen hinv (Bool.eq_false_iff.mpr h) _ _ _

theorem atMostOnePerDay_foldl_absent (students : StudentTable) (today : PyStr) :
    ∀ (L : List PyStr) (acc : AttTable), atMostOnePerDay acc →
      atMostOnePerDay (L.foldl (absentStep students today) acc)
  | [], _, hinv => hinv
  | n :: L, acc, hinv =>
      atMostOnePerDay_foldl_absent students today L _
        (atMostOnePerDay_absentStep hinv students today n)

theorem atMostOnePerDay_report {t : AttTable} (hinv : atMostOnePerDay t)
    (students : StudentTable) (today : PyStr) :
    atMostOnePerDay (todays_report students today t) :=
  atMostOnePerDay_foldl_absent students today _ t hinv

theorem pairCount_toggle (t : AttTable) (i : Nat) (s name d : PyStr) :
    pairCount (toggle_status t i s) name d = pairCount t name d := by
  unfold pairCount toggle_status
  rw [List.filter_map, List.length_map]
  congr 1
  apply List.filter_congr
  intro r _
  by_cases h : r.id = i <;> simp [h]

theorem atMostOnePerDay_toggle {t : AttTable} (hinv : atMostOnePerDay t)
    (i : Nat) (s : PyStr) : atMostOnePerDay (toggle_status t i s) := by
  intro name d
  rw [pairCount_toggle]
  exact hinv name d

theorem atMostOnePerDay_stepSafe {a b : AttTable} (hinv : atMostOnePerDay a)
    (h : StepSafe a b) : atMostOnePerDay b := by
  cases h with
  | mark cfg ok today now name reg t => exact atMostOnePerDay_mark hinv cfg ok today now name reg
  | report students today t => exact atMostOnePerDay_report hinv students today
  | toggle i status t => exact atMostOnePerDay_toggle hinv i status

theorem presentCount_le_pairCount (t : AttTable) (name d : PyStr) :
    presentCount t name d ≤ pairCount t name d :=
  List.length_filter_le _ _

/-! ## Claim C10 -/

/-- C10: whenever any record for (full name, today) already exists —
whatever its status, including a synthesized Absent record —
`mark_attendance` for that name leaves the attendance table unchanged and
attempts no notification. -/
theorem C10_existing_record_blocks (cfg : EmailCfg) (ok : Bool)
    (today now : PyStr) (t : AttTable) (name reg : PyStr) (r : AttRecord)
    (hr : r ∈ t.rows) (hn : r.full_name = name) (hd : r.date = today) :
    mark_attendance cfg ok today now t name reg = (t, EmailResult.notAttempted) := by
  unfold mark_attendance
  rw [if_pos (hasRecordFor_of_mem hr hn hd)]

/-- Witness for C10: an existing synthesized Absent record for x blocks
`mark_attendance` for x on the same date. -/
theorem C10_existing_record_blocks_witness :
    mark_attendance someCfg true (strCodes "2025-06-01") (strCodes "09:00:00")
        oneAbsentTable (strCodes "x") (strCodes "r")
      = (oneAbsentTable, EmailResult.notAttempted) :=
  C10_existing_record_blocks someCfg true (strCodes "2025-06-01") (strCodes "09:00:00")
    oneAbsentTable (strCodes "x") (strCodes "r") oneAbsentRecord
    (by decide) (by decide) (by decide)

/-! ## Claim C8 -/

/-- C8: the attendance-table outcome of `mark_attendance` is independent of
the email configuration and delivery outcome; with missing credentials the
notification is skipped without error; and when delivery fails the failure
is surfaced while the already-committed Present record stays in the store. -/
theorem C8_notification_independence (cfg : EmailCfg) (ok : Bool)
    (today now : PyStr) (t : AttTable) (name reg : PyStr) :
    (∀ (cfg2 : EmailCfg) (ok2 : Bool),
        (mark_attendance cfg ok today now t name reg).1
          = (mark_attendance cfg2 ok2 today now t name reg).1)
    ∧ (truthy cfg.sender = false ∨ truthy cfg.app_password = false →
        (mark_attendance cfg ok today now t name reg).2 = EmailResult.notAttempted ∨
        (mark_attendance cfg ok today now t name reg).2 = EmailResult.skippedNoCreds)
    ∧ (hasRecordFor t name today = false → ok = false →
        truthy cfg.sender = true → truthy cfg.app_password = true →
        (mark_attendance cfg ok today now t name reg).2 = EmailResult.failed ∧
        (⟨t.nextId, name, reg, today, now, PRESENT⟩ : AttRecord)
          ∈ (mark_attendance cfg ok today now t name reg).1.rows) := by
  refine ⟨fun cfg2 ok2 => ?_, fun hcred => ?_, fun hrec hok hs hp => ?_⟩
  · unfold mark_attendance
    by_cases h : hasRecordFor t name today = true
    · rw [if_pos h, if_pos h]
    · rw [if_neg h, if_neg h]
  · unfold mark_attendance
    by_cases h : hasRecordFor t name today = true
    · rw [if_pos h]; left; rfl
    · rw [if_neg h]; right
      show send_attendance_email cfg ok = EmailResult.skippedNoCreds
      unfold send_attendance_email
      rcases hcred with hc | hc <;> rw [hc] <;> simp
  · unfold mark_attendance
    rw [if_neg (by rw [hrec]; exact Bool.false_ne_true)]
    refine ⟨?_, ?_⟩
    · show send_attendance_email cfg ok = EmailResult.failed
      unfold send_attendance_email
      rw [hs, hp, hok]
      rfl
    · show _ ∈ (insertAttendance t name reg today now PRESENT).rows
      unfold insertAttendance
      exact List.mem_append_right _ (List.mem_singleton.mpr rfl)

/-- Witness for C8: with configured credentials and a failing SMTP
exchange, the recognition of a new student reports the failure while the
Present record is committed. -/
theorem C8_notification_independence_witness :
    (mark_attendance someCfg false (strCodes "2025-06-01") (strCodes "09:00:00")
        emptyTable (strCodes "x") (strCodes "r")).2 = EmailResult.failed ∧
    (⟨emptyTable.nextId, strCodes "x", strCodes "r", strCodes "2025-06-01",
        strCodes "09:00:00", PRESENT⟩ : AttRecord)
      ∈ (mark_attendance someCfg false (strCodes "2025-06-01") (strCodes "09:00:00")
        emptyTable (strCodes "x") (strCodes "r")).1.rows :=
  (C8_notification_independence someCfg false (strCodes "2025-06-01")
      (strCodes "09:00:00") emptyTable (strCodes "x") (strCodes "r")).2.2
    (by decide) rfl (by decide) (by decide)

/-! ## Claim C2 -/

/-- Counterexample to C2 as stated: the Save Changes path is one of the
system's write operations, and inserting two operator-added Present rows
for the same (full name, date) through it yields a reachable state with
two Present records for that pair. -/
theorem C2_present_uniqueness_counterexample :
    Reachable (save_changes [] [dupPresentRow "08:00:00", dupPresentRow "08:00:01"]
        emptyTable).table ∧
    presentCount (save_changes [] [dupPresentRow "08:00:00", dupPresentRow "08:00:01"]
        emptyTable).table (strCodes "x") (strCodes "2025-01-01") = 2 :=
  ⟨Relation.ReflTransGen.single
      (Step.editSave [] [dupPresentRow "08:00:00", dupPresentRow "08:00:01"] emptyTable),
   by decide⟩

/-- C2 amended: in every state reachable from the empty table by
recognition's `mark_attendance`, Absent-record synthesis and the status
toggle, at most one attendance record — in particular at most one Present
record — exists per (full name, date). The Save Changes path of the
records page is excluded: its inserts and updates perform no
per-(name, date) check and can create duplicates. -/
theorem C2_present_uniqueness_amended (t : AttTable) (h : ReachableSafe t)
    (name d : PyStr) : presentCount t name d ≤ 1 := by
  have hinv : atMostOnePerDay t := by
    induction h with
    | refl => exact atMostOnePerDay_empty
    | tail _ hstep ih => exact atMostOnePerDay_stepSafe ih hstep
  exact le_trans (presentCount_le_pairCount t name d) (hinv name d)

/-- Witness for C2 amended: a state reached by one recognition write. -/
theorem C2_present_uniqueness_witness :
    presentCount (mark_attendance someCfg true (strCodes "2025-06-01")
        (strCodes "09:00:00") emptyTable (strCodes "x") (strCodes "r")).1
      (strCodes "x") (strCodes "2025-06-01") ≤ 1 :=
  C2_present_uniqueness_amended _
    (Relation.ReflTransGen.single
      (StepSafe.mark someCfg true (strCodes "2025-06-01") (strCodes "09:00:00")
        (strCodes "x") (strCodes "r") emptyTable))
    (strCodes "x") (strCodes "2025-06-01")

/-! ## Claim C5 -/

/-- C5: an enrollment attempt whose registration number is already bound
to a different full name is rejected with no write to the registry or the
encoding store, and a session accepting zero frames likewise performs no
writes and reports failure. -/
theorem C5_conflict_no_writes (enc : EncStore) (students : StudentTable)
    (name reg : PyStr) (session_allow : Bool) (new_encodings : List Vec)
    (today : PyStr) :
    ((∃ s0, students.rows.find? (fun s => s.reg_no == reg) = some s0 ∧
        pyLower (pyStrip s0.full_name) ≠ pyLower (pyStrip name)) →
      enroll enc students name reg session_allow new_encodings today
        = ⟨enc, students, false⟩)
    ∧ (new_encodings = [] →
      enroll enc students name reg session_allow new_encodings today
        = ⟨enc, students, false⟩) := by
  constructor
  · rintro ⟨s0, hfind, hne⟩
    have hallow : allow_capture students name reg session_allow = false := by
      unfold allow_capture
      rw [hfind]
      have hbeq : (pyLower (pyStrip s0.full_name) == pyLower (pyStrip name)) = false :=
        beq_eq_false_iff_ne.mpr hne
      simp [hbeq]
    unfold enroll
    rw [hallow]
    rfl
  · rintro rfl
    unfold enroll
    by_cases h : allow_capture students name reg session_allow = true
    · rw [h]; rfl
    · rw [Bool.eq_false_iff.mpr h]; rfl

/-- Witness for C5: registration number r1 is bound to "a b c"; enrolling
"x y z" under r1 performs no writes, and a zero-frame session for the new
number r9 performs no writes either. -/
theorem C5_conflict_no_writes_witness :
    enroll oneStudentEnc oneStudentRegistry (strCodes "x y z") (strCodes "r1")
        true [[9]] (strCodes "2025-06-02")
      = ⟨oneStudentEnc, oneStudentRegistry, false⟩ ∧
    enroll oneStudentEnc oneStudentRegistry (strCodes "d e f") (strCodes "r9")
        true [] (strCodes "2025-06-02")
      = ⟨oneStudentEnc, oneStudentRegistry, false⟩ :=
  ⟨(C5_conflict_no_writes oneStudentEnc oneStudentRegistry (strCodes "x y z")
      (strCodes "r1") true [[9]] (strCodes "2025-06-02")).1
    ⟨⟨1, strCodes "a b c", strCodes "r1", strCodes "a_b_c_r1", 3, strCodes "2025-01-01"⟩,
      by decide, by decide⟩,
   (C5_conflict_no_writes oneStudentEnc oneStudentRegistry (strCodes "d e f")
      (strCodes "r9") true [] (strCodes "2025-06-02")).2 rfl⟩

/-! ## Lemmas about the enrollment save path -/

theorem name_valid_ne_nil {n : PyStr} (h : name_valid n = true) : n ≠ [] := by
  intro hnil
  rw [hnil] at h
  exact absurd h (by decide)

theorem allow_capture_matched {students : StudentTable} {name reg : PyStr} {s0 : Student}
    (hfind : students.rows.find? (fun s => s.reg_no == reg) = some s0)
    (hmatch : pyLower (pyStrip s0.full_name) = pyLower (pyStrip name))
    (hvalid : name_valid name = true) (hreg : reg ≠ []) :
    allow_capture students name reg true = true := by
  unfold allow_capture
  rw [hfind]
  have h1 : name.isEmpty = false := by
    rw [List.isEmpty_eq_false]
    exact name_valid_ne_nil hvalid
  have h2 : reg.isEmpty = false := by
    rw [List.isEmpty_eq_false]
    exact hreg
  simp [h1, h2, hvalid, hmatch]

theorem find?_map_overwrite (l : List (PyStr × List Vec)) (k : PyStr) (v : List Vec)
    (h : (l.find? (fun p => p.1 == k)).isSome = true) :
    ((l.map (fun p => if p.1 == k then (k, v) else p)).find? (fun p => p.1 == k))
      = some (k, v) := by
  induction l with
  | nil => simp at h
  | cons p ps ih =>
      by_cases hp : (p.1 == k) = true
      · rw [List.map_cons, if_pos hp]
        exact List.find?_cons_of_pos _ (by simp)
      · have hpf : (p.1 == k) = false := Bool.eq_false_iff.mpr hp
        rw [List.map_cons, if_neg hp, List.find?_cons]
        simp only [hpf]
        rw [List.find?_cons] at h
        simp only [hpf] at h
        exact ih h

theorem find?_append_new (l : List (PyStr × List Vec)) (k : PyStr) (v : List Vec)
    (h : l.find? (fun p => p.1 == k) = none) :
    ((l ++ [(k, v)]).find? (fun p => p.1 == k)) = some (k, v) := by
  rw [List.find?_append, h, Option.none_or]
  exact List.find?_cons_of_pos _ (by simp)

theorem encLookup_encSave_self (e : EncStore) (k : PyStr) (v : List Vec) :
    encLookup (encSave e k v) k = some v := by
  unfold encLookup encSave
  by_cases h : (e.files.find? (fun p => p.1 == k)).isSome = true
  · rw [if_pos h]
    show ((e.files.map _).find? _).map _ = _
    rw [find?_map_overwrite e.files k v h]
    rfl
  · rw [if_neg h]
    show ((e.files ++ [(k, v)]).find? _).map _ = _
    rw [find?_append_new e.files k v (Option.not_isSome_iff_eq_none.mp h)]
    rfl

theorem find?_insertOrReplace_self (st : StudentTable) (fn reg fol : PyStr)
    (cnt : Nat) (d : PyStr) :
    (insertOrReplaceStudent st fn reg fol cnt d).rows.find? (fun s => s.reg_no == reg)
      = some ⟨st.nextId, fn, reg, fol, cnt, d⟩ := by
  unfold insertOrReplaceStudent
  dsimp only
  rw [List.find?_append]
  have hnone : (st.rows.filter (fun s => !(s.reg_no == reg))).find?
      (fun s => s.reg_no == reg) = none := by
    rw [List.find?_eq_none]
    intro s hs
    have := (List.mem_filter.mp hs).2
    simp only [Bool.not_eq_true'] at this
    rw [this]
    exact Bool.false_ne_true
  rw [hnone, Option.none_or]
  exact List.find?_cons_of_pos _ (by simp)

theorem enroll_matched_spec {enc : EncStore} {students : StudentTable}
    {name reg : PyStr} {new_encodings : List Vec} {today : PyStr}
    {old : List Vec} {s0 : Student}
    (hfind : students.rows.find? (fun s => s.reg_no == reg) = some s0)
    (hmatch : pyLower (pyStrip s0.full_name) = pyLower (pyStrip name))
    (hvalid : name_valid name = true) (hreg : reg ≠ []) (hnew : new_encodings ≠ [])
    (henc : encLookup enc (normalize_folder_name name reg) = some old) :
    enroll enc students name reg true new_encodings today =
      ⟨encSave enc (normalize_folder_name name reg) (old ++ new_encodings),
       insertOrReplaceStudent students (pyLower (pyStrip name)) reg
         (normalize_folder_name name reg)
         (s0.image_count + new_encodings.length) today,
       true⟩ := by
  have hempty : new_encodings.isEmpty = false := by
    rw [List.isEmpty_eq_false]
    exact hnew
  unfold enroll
  rw [allow_capture_matched hfind hmatch hvalid hreg]
  simp only [Bool.not_true, Bool.false_eq_true, if_false, hempty, henc, hfind]

/-! ## Claim C4 -/

/-- C4: a confirmed re-enrollment of an already-registered student whose
session accepts `k ≥ 1` frames appends the `k` new vectors after the
previously stored ones (nothing discarded), and the registry row's
`image_count` afterwards is the prior count plus `k`. -/
theorem C4_reenroll_append (enc : EncStore) (students : StudentTable)
    (name reg : PyStr) (new_encodings : List Vec) (today : PyStr)
    (old : List Vec) (s0 : Student) (k : Nat)
    (hfind : students.rows.find? (fun s => s.reg_no == reg) = some s0)
    (hmatch : pyLower (pyStrip s0.full_name) = pyLower (pyStrip name))
    (hvalid : name_valid name = true) (hreg : reg ≠ [])
    (hk : new_encodings.length = k) (hk1 : 1 ≤ k)
    (henc : encLookup enc (normalize_folder_name name reg) = some old) :
    encLookup (enroll enc students name reg true new_encodings today).enc
        (normalize_folder_name name reg) = some (old ++ new_encodings) ∧
    (enroll enc students name reg true new_encodings today).students.rows.find?
        (fun s => s.reg_no == reg)
      = some ⟨students.nextId, pyLower (pyStrip name), reg,
              normalize_folder_name name reg, s0.image_count + k, today⟩ ∧
    (enroll enc students name reg true new_encodings today).success = true := by
  have hnew : new_encodings ≠ [] := by
    intro hnil
    rw [hnil, List.length_nil] at hk
    omega
  rw [enroll_matched_spec hfind hmatch hvalid hreg hnew henc]
  refine ⟨encLookup_encSave_self _ _ _, ?_, rfl⟩
  rw [← hk]
  exact find?_insertOrReplace_self students _ reg _ _ today

/-- Witness for C4: re-enrolling "a b c" (reg r1, previously 3 vectors,
image_count 3) with 2 accepted frames yields the 3 old vectors followed by
the 2 new ones and image_count 5. -/
theorem C4_reenroll_append_witness :
    encLookup (enroll oneStudentEnc oneStudentRegistry (strCodes "A B C")
        (strCodes "r1") true [[9], [10]] (strCodes "2025-06-02")).enc
      (normalize_folder_name (strCodes "A B C") (strCodes "r1"))
      = some [[1], [2], [3], [9], [10]] ∧
    (enroll oneStudentEnc oneStudentRegistry (strCodes "A B C") (strCodes "r1")
        true [[9], [10]] (strCodes "2025-06-02")).students.rows.find?
        (fun s => s.reg_no == strCodes "r1")
      = some ⟨oneStudentRegistry.nextId, pyLower (pyStrip (strCodes "A B C")),
              strCodes "r1", normalize_folder_name (strCodes "A B C") (strCodes "r1"),
              (3 : Nat) + 2, strCodes "2025-06-02"⟩ ∧
    (enroll oneStudentEnc oneStudentRegistry (strCodes "A B C") (strCodes "r1")
        true [[9], [10]] (strCodes "2025-06-02")).success = true :=
  C4_reenroll_append oneStudentEnc oneStudentRegistry (strCodes "A B C")
    (strCodes "r1") [[9], [10]] (strCodes "2025-06-02") [[1], [2], [3]]
    ⟨1, strCodes "a b c", strCodes "r1", strCodes "a_b_c_r1", 3, strCodes "2025-01-01"⟩
    2 (by decide) (by decide) (by decide) (by decide) (by decide) (by decide) (by decide)

/-! ## Claim C7 -/

/-- Counterexample to C7 as stated: the registry row for r1 was first
inserted with `registration_date` 2025-01-01, yet a later confirmed
re-enrollment on 2025-06-02 leaves the row with `registration_date`
2025-06-02 — the `INSERT OR REPLACE` rewrites the whole row. -/
theorem C7_registration_date_counterexample :
    ((oneStudentRegistry.rows.find? (fun s => s.reg_no == strCodes "r1")).map
        (·.registration_date)) = some (strCodes "2025-01-01") ∧
    (((enroll oneStudentEnc oneStudentRegistry (strCodes "a b c") (strCodes "r1")
          true [[9]] (strCodes "2025-06-02")).students.rows.find?
        (fun s => s.reg_no == strCodes "r1")).map (·.registration_date))
      = some (strCodes "2025-06-02") := by
  constructor
  · decide
  · decide

/-- C7 amended: re-enrollment goes through `INSERT OR REPLACE`, which
replaces the whole registry row: `registration_date` is reset to the date
of the (re-)enrollment session rather than kept from the first insert, and
the row id is reassigned by AUTOINCREMENT; only `reg_no` is carried over
unchanged, while `full_name`, `folder_name` and `image_count` are set from
the session as specified. -/
theorem C7_registration_date_amended (enc : EncStore) (students : StudentTable)
    (name reg : PyStr) (new_encodings : List Vec) (today : PyStr)
    (old : List Vec) (s0 : Student)
    (hfind : students.rows.find? (fun s => s.reg_no == reg) = some s0)
    (hmatch : pyLower (pyStrip s0.full_name) = pyLower (pyStrip name))
    (hvalid : name_valid name = true) (hreg : reg ≠ [])
    (hnew : new_encodings ≠ [])
    (henc : encLookup enc (normalize_folder_name name reg) = some old) :
    ∃ row, (enroll enc students name reg true new_encodings today).students.rows.find?
        (fun s => s.reg_no == reg) = some row ∧
      row.registration_date = today ∧
      row.id = students.nextId ∧
      row.reg_no = reg := by
  refine ⟨⟨students.nextId, pyLower (pyStrip name), reg, normalize_folder_name name reg,
      s0.image_count + new_encodings.length, today⟩, ?_, rfl, rfl, rfl⟩
  rw [enroll_matched_spec hfind hmatch hvalid hreg hnew henc]
  exact find?_insertOrReplace_self students _ reg _ _ today

/-- Witness for C7 amended: the re-enrollment of the counterexample indeed
leaves a row whose registration date is the session date 2025-06-02. -/
theorem C7_registration_date_witness :
    ∃ row, (enroll oneStudentEnc oneStudentRegistry (strCodes "a b c")
        (strCodes "r1") true [[9]] (strCodes "2025-06-02")).students.rows.find?
        (fun s => s.reg_no == strCodes "r1") = some row ∧
      row.registration_date = strCodes "2025-06-02" ∧
      row.id = oneStudentRegistry.nextId ∧
      row.reg_no = strCodes "r1" :=
  C7_registration_date_amended oneStudentEnc oneStudentRegistry (strCodes "a b c")
    (strCodes "r1") [[9]] (strCodes "2025-06-02") [[1], [2], [3]]
    ⟨1, strCodes "a b c", strCodes "r1", strCodes "a_b_c_r1", 3, strCodes "2025-01-01"⟩
    (by decide) (by decide) (by decide) (by decide) (by decide) (by decide)

/-! ## Lemmas about argmin -/

theorem argminGo_fst (ds : List ℚ) : ∀ (b : ℚ) (bi i : Nat),
    (argminGo ds (b, bi) i).1 = ds.foldl min b := by
  induction ds with
  | nil => intro b bi i; rfl
  | cons d ds ih =>
      intro b bi i
      unfold argminGo
      by_cases h : d < b
      · rw [if_pos h]
        show (argminGo ds (d, i) (i + 1)).1 = ds.foldl min (min b d)
        rw [min_eq_right h.le]
        exact ih d i (i + 1)
      · rw [if_neg h]
        show (argminGo ds (b, bi) (i + 1)).1 = ds.foldl min (min b d)
        rw [min_eq_left (not_lt.mp h)]
        exact ih b bi (i + 1)

theorem argminGo_pair (P : ℚ → Nat → Prop) (ds : List ℚ) : ∀ (b : ℚ) (bi i : Nat),
    P b bi → (∀ j (hj : j < ds.length), P ds[j] (i + j)) →
    P (argminGo ds (b, bi) i).1 (argminGo ds (b, bi) i).2 := by
  induction ds with
  | nil => intro b bi i hb _; exact hb
  | cons d ds ih =>
      intro b bi i hb hstep
      have hd : P d i := by
        have := hstep 0 (by simp)
        simpa using this
      have hrest : ∀ j (hj : j < ds.length), P ds[j] ((i + 1) + j) := by
        intro j hj
        have := hstep (j + 1) (by simpa using Nat.succ_lt_succ hj)
        have heq : i + (j + 1) = (i + 1) + j := by omega
        rw [heq] at this
        simpa using this
      unfold argminGo
      by_cases h : d < b
      · rw [if_pos h]
        exact ih d i (i + 1) hd hrest
      · rw [if_neg h]
        exact ih b bi (i + 1) hb hrest

theorem argmin_spec (l : List ℚ) (h : l ≠ []) :
    argmin l < l.length ∧ l.getD (argmin l) 0 = listMin l := by
  obtain ⟨x, xs, rfl⟩ := List.exists_cons_of_ne_nil h
  have hpair := argminGo_pair
    (fun v k => k < (x :: xs).length ∧ (x :: xs).getD k 0 = v) xs x 0 1
    (by simp) ?_
  · have hfst : (argminGo xs (x, 0) 1).1 = xs.foldl min x := argminGo_fst xs x 0 1
    have hmin : listMin (x :: xs) = xs.foldl min x := rfl
    have hargmin : argmin (x :: xs) = (argminGo xs (x, 0) 1).2 := rfl
    rw [hargmin, hmin]
    exact ⟨hpair.1, by rw [hpair.2, hfst]⟩
  · intro j hj
    rw [Nat.add_comm 1 j]
    refine ⟨by simpa using Nat.succ_lt_succ hj, ?_⟩
    show (x :: xs).getD (j + 1) 0 = xs[j]
    rw [List.getD_cons_succ]
    exact List.getD_eq_getElem xs 0 hj

/-! ## Claim C1 -/

/-- C1: for a detected face, with d the minimum of the distances from its
embedding to the known embeddings: if d ≥ 0.4 the face is classified
"Unknown" (`none`), and if d < 0.4 it is classified as the entry of a known
embedding achieving that minimum distance. -/
theorem C1_threshold_classification (known_names : List PyStr) (distances : List ℚ)
    (hne : distances ≠ []) (hlen : known_names.length = distances.length) :
    (THRESHOLD ≤ listMin distances → classifyFace known_names distances = none) ∧
    (listMin distances < THRESHOLD →
      ∃ i, i < distances.length ∧ i < known_names.length ∧
        distances.getD i 0 = listMin distances ∧
        classifyFace known_names distances = some (known_names.getD i [])) := by
  obtain ⟨hlt, hget⟩ := argmin_spec distances hne
  constructor
  · intro hge
    show (if distances.getD (argmin distances) 0 < THRESHOLD
        then some (known_names.getD (argmin distances) []) else none) = none
    rw [hget, if_neg (not_lt.mpr hge)]
  · intro hmin
    refine ⟨argmin distances, hlt, by rw [hlen]; exact hlt, hget, ?_⟩
    show (if distances.getD (argmin distances) 0 < THRESHOLD
        then some (known_names.getD (argmin distances) []) else none)
      = some (known_names.getD (argmin distances) [])
    rw [hget, if_pos hmin]

/-- Witness for C1: distances [1/2, 3/10] to entries x and y have minimum
3/10 < 0.4, achieved at index 1, so the face is classified as y. -/
theorem C1_threshold_classification_witness :
    listMin [(1 : ℚ)/2, 3/10] < THRESHOLD ∧
    ∃ i, i < ([(1 : ℚ)/2, 3/10]).length ∧ i < ([strCodes "x", strCodes "y"]).length ∧
      ([(1 : ℚ)/2, 3/10]).getD i 0 = listMin [(1 : ℚ)/2, 3/10] ∧
      classifyFace [strCodes "x", strCodes "y"] [(1 : ℚ)/2, 3/10]
        = some (([strCodes "x", strCodes "y"]).getD i []) :=
  have hmin : listMin [(1 : ℚ)/2, 3/10] < THRESHOLD := by
    norm_num [listMin, THRESHOLD, min_def]
  ⟨hmin,
   (C1_threshold_classification [strCodes "x", strCodes "y"] [(1 : ℚ)/2, 3/10]
      (List.cons_ne_nil _ _) rfl).2 hmin⟩

/-! ## Claim C6 -/

/-- Counterexample to C6 as stated: on a filtered view of 3 records where
the operator deletes row 1, edits the status of row 2, and leaves row 3
unchanged, saving executes 1 DELETE and 0 INSERTs as claimed — but 2
UPDATE statements, not 1: the insert-or-update loop runs over every row of
the edited view, rewriting the unchanged row as well. -/
theorem C6_editsave_counts_counterexample :
    (save_changes [1, 2, 3] threeRowEdited threeRowTable).deletes = 1 ∧
    (save_changes [1, 2, 3] threeRowEdited threeRowTable).inserts = 0 ∧
    (save_changes [1, 2, 3] threeRowEdited threeRowTable).updates = 2 := by
  refine ⟨by decide, by decide, by decide⟩

/-- C6 amended: in the 3-record scenario (delete one row, edit one row's
status, leave one row unchanged), saving executes exactly 1 DELETE, 0
INSERTs, and 2 UPDATE statements — one per row remaining in the edited
view, the unchanged row being rewritten with identical values — and every
record outside the active filter is left untouched. -/
theorem C6_editsave_counts_amended (t : AttTable) (a b c : Nat)
    (rb rc : AttRecord) (s' : PyStr)
    (hab : a ≠ b) (hac : a ≠ c) (hbc : b ≠ c)
    (hrbid : rb.id = b) (hrcid : rc.id = c)
    (hrbm : rb ∈ t.rows) (hrcm : rc ∈ t.rows) :
    (save_changes [a, b, c]
        [⟨some b, rb.full_name, rb.reg_no, rb.date, rb.time, s'⟩,
         ⟨some c, rc.full_name, rc.reg_no, rc.date, rc.time, rc.status⟩] t).deletes = 1 ∧
    (save_changes [a, b, c]
        [⟨some b, rb.full_name, rb.reg_no, rb.date, rb.time, s'⟩,
         ⟨some c, rc.full_name, rc.reg_no, rc.date, rc.time, rc.status⟩] t).updates = 2 ∧
    (save_changes [a, b, c]
        [⟨some b, rb.full_name, rb.reg_no, rb.date, rb.time, s'⟩,
         ⟨some c, rc.full_name, rc.reg_no, rc.date, rc.time, rc.status⟩] t).inserts = 0 ∧
    (∀ r ∈ t.rows, r.id ≠ a → r.id ≠ b → r.id ≠ c →
      r ∈ (save_changes [a, b, c]
        [⟨some b, rb.full_name, rb.reg_no, rb.date, rb.time, s'⟩,
         ⟨some c, rc.full_name, rc.reg_no, rc.date, rc.time, rc.status⟩] t).table.rows) ∧
    (∀ r ∈ (save_changes [a, b, c]
        [⟨some b, rb.full_name, rb.reg_no, rb.date, rb.time, s'⟩,
         ⟨some c, rc.full_name, rc.reg_no, rc.date, rc.time, rc.status⟩] t).table.rows,
      r.id ≠ a) ∧
    { rb with status := s' } ∈ (save_changes [a, b, c]
        [⟨some b, rb.full_name, rb.reg_no, rb.date, rb.time, s'⟩,
         ⟨some c, rc.full_name, rc.reg_no, rc.date, rc.time, rc.status⟩] t).table.rows ∧
    rc ∈ (save_changes [a, b, c]
        [⟨some b, rb.full_name, rb.reg_no, rb.date, rb.time, s'⟩,
         ⟨some c, rc.full_name, rc.reg_no, rc.date, rc.time, rc.status⟩] t).table.rows := by
  have hdedup : ([a, b, c] : List Nat).dedup = [a, b, c] := by
    rw [List.dedup_cons_of_not_mem (by simp [hab, hac]),
        List.dedup_cons_of_not_mem (by simp [hbc]),
        List.dedup_cons_of_not_mem (by simp), List.dedup_nil]
  have hids : (([⟨some b, rb.full_name, rb.reg_no, rb.date, rb.time, s'⟩,
      ⟨some c, rc.full_name, rc.reg_no, rc.date, rc.time, rc.status⟩] :
        List EditedRow).filterMap (·.id)) = [b, c] := rfl
  have hcontains : ∀ x y z : Nat, ([y, z] : List Nat).contains x = (x == y || x == z) := by
    intro x y z
    show List.elem x [y, z] = _
    cases h1 : (x == y) <;> cases h2 : (x == z) <;> simp [List.elem, h1, h2]
  have hdel : (([a, b, c] : List Nat).dedup).filter
      (fun i => !([b, c] : List Nat).contains i) = [a] := by
    rw [hdedup]
    rw [List.filter_cons, List.filter_cons, List.filter_cons, List.filter_nil]
    rw [hcontains a b c, hcontains b b c, hcontains c b c]
    rw [beq_eq_false_iff_ne.mpr hab, beq_eq_false_iff_ne.mpr hac, beq_self_eq_true b,
        beq_self_eq_true c, beq_eq_false_iff_ne.mpr (Ne.symm hbc)]
    rfl
  have htab : (save_changes [a, b, c]
      [⟨some b, rb.full_name, rb.reg_no, rb.date, rb.time, s'⟩,
       ⟨some c, rc.full_name, rc.reg_no, rc.date, rc.time, rc.status⟩] t).table.rows =
      ((t.rows.filter (fun r => !([a] : List Nat).contains r.id)).map
        (fun r => if r.id = b then
          (⟨r.id, rb.full_name, rb.reg_no, rb.date, rb.time, s'⟩ : AttRecord) else r)).map
        (fun r => if r.id = c then
          (⟨r.id, rc.full_name, rc.reg_no, rc.date, rc.time, rc.status⟩ : AttRecord)
          else r) := by
    unfold save_changes
    dsimp only
    rw [hids, hdel]
    rfl
  have hdeletes : (save_changes [a, b, c]
      [⟨some b, rb.full_name, rb.reg_no, rb.date, rb.time, s'⟩,
       ⟨some c, rc.full_name, rc.reg_no, rc.date, rc.time, rc.status⟩] t).deletes = 1 := by
    unfold save_changes
    dsimp only
    rw [hids, hdel]
    rfl
  have hsingleton : ∀ x y : Nat, x ≠ y → (([y] : List Nat).contains x) = false := by
    intro x y hxy
    show List.elem x [y] = false
    simp [List.elem, beq_eq_false_iff_ne.mpr hxy]
  refine ⟨hdeletes, rfl, rfl, ?_, ?_, ?_, ?_⟩
  · intro r hr h1 h2 h3
    rw [htab]
    have hmem1 : r ∈ t.rows.filter (fun q => !([a] : List Nat).contains q.id) :=
      List.mem_filter.mpr ⟨hr, by rw [hsingleton r.id a h1]; rfl⟩
    exact List.mem_map.mpr ⟨r, List.mem_map.mpr ⟨r, hmem1, if_neg h2⟩, if_neg h3⟩
  · intro r hr
    rw [htab] at hr
    obtain ⟨r1, hr1, rfl⟩ := List.mem_map.mp hr
    obtain ⟨r0, hr0, rfl⟩ := List.mem_map.mp hr1
    have hid0 : r0.id ≠ a := by
      have hpred := (List.mem_filter.mp hr0).2
      intro heq
      rw [heq] at hpred
      have hca : (([a] : List Nat).contains a) = true := by simp [List.contains, List.elem]
      rw [hca] at hpred
      exact absurd hpred (by decide)
    have hidpres : ∀ (i : Nat) (fn rg dt tm st : PyStr) (q : AttRecord),
        (if q.id = i then (⟨q.id, fn, rg, dt, tm, st⟩ : AttRecord) else q).id = q.id := by
      intro i fn rg dt tm st q
      by_cases h : q.id = i <;> simp [h]
    rw [hidpres, hidpres]
    exact hid0
  · rw [htab]
    have hmem1 : rb ∈ t.rows.filter (fun q => !([a] : List Nat).contains q.id) :=
      List.mem_filter.mpr ⟨hrbm, by rw [hsingleton rb.id a (by rw [hrbid]; exact Ne.symm hab)]; rfl⟩
    refine List.mem_map.mpr ⟨⟨rb.id, rb.full_name, rb.reg_no, rb.date, rb.time, s'⟩,
      List.mem_map.mpr ⟨rb, hmem1, if_pos hrbid⟩, ?_⟩
    rw [if_neg (show ¬((⟨rb.id, rb.full_name, rb.reg_no, rb.date, rb.time, s'⟩ :
        AttRecord).id = c) from by rw [show (⟨rb.id, rb.full_name, rb.reg_no, rb.date,
          rb.time, s'⟩ : AttRecord).id = b from hrbid]; exact hbc)]
  · rw [htab]
    have hmem1 : rc ∈ t.rows.filter (fun q => !([a] : List Nat).contains q.id) :=
      List.mem_filter.mpr ⟨hrcm, by rw [hsingleton rc.id a (by rw [hrcid]; exact Ne.symm hac)]; rfl⟩
    have e1 : (if rc.id = b then
        (⟨rc.id, rb.full_name, rb.reg_no, rb.date, rb.time, s'⟩ : AttRecord) else rc) = rc :=
      if_neg (by rw [hrcid]; exact fun h => hbc h.symm)
    refine List.mem_map.mpr ⟨rc, List.mem_map.mpr ⟨rc, hmem1, e1⟩, ?_⟩
    rw [if_pos hrcid]

/-- Witness for C6 amended: applied to the concrete 3-record table, with
row 1 deleted, row 2's status edited to Absent and row 3 unchanged. -/
theorem C6_editsave_counts_witness :
    (save_changes [1, 2, 3] threeRowEdited threeRowTable).deletes = 1 ∧
    (save_changes [1, 2, 3] threeRowEdited threeRowTable).updates = 2 ∧
    (save_changes [1, 2, 3] threeRowEdited threeRowTable).inserts = 0 ∧
    (∀ r ∈ threeRowTable.rows, r.id ≠ 1 → r.id ≠ 2 → r.id ≠ 3 →
      r ∈ (save_changes [1, 2, 3] threeRowEdited threeRowTable).table.rows) ∧
    (∀ r ∈ (save_changes [1, 2, 3] threeRowEdited threeRowTable).table.rows, r.id ≠ 1) ∧
    { (⟨2, strCodes "b", strCodes "r2", strCodes "2025-06-01", strCodes "08:01:00",
        PRESENT⟩ : AttRecord) with status := ABSENT }
      ∈ (save_changes [1, 2, 3] threeRowEdited threeRowTable).table.rows ∧
    (⟨3, strCodes "c", strCodes "r3", strCodes "2025-06-01", strCodes "-", ABSENT⟩ :
        AttRecord)
      ∈ (save_changes [1, 2, 3] threeRowEdited threeRowTable).table.rows :=
  C6_editsave_counts_amended threeRowTable 1 2 3
    ⟨2, strCodes "b", strCodes "r2", strCodes "2025-06-01", strCodes "08:01:00", PRESENT⟩
    ⟨3, strCodes "c", strCodes "r3", strCodes "2025-06-01", strCodes "-", ABSENT⟩
    ABSENT (by decide) (by decide) (by decide) (by decide) (by decide)
    (by decide) (by decide)

/-! ## String lemmas for the folder-name round trip -/

theorem isSpaceCode_pyLowerCode (n : Nat) : isSpaceCode (pyLowerCode n) = isSpaceCode n := by
  unfold pyLowerCode
  split
  · next h =>
      unfold isSpaceCode
      rw [decide_eq_decide]
      omega
  · rfl

theorem pyLowerCode_idem (n : Nat) : pyLowerCode (pyLowerCode n) = pyLowerCode n := by
  unfold pyLowerCode
  by_cases h : 65 ≤ n ∧ n ≤ 90
  · rw [if_pos h, if_neg (by omega)]
  · rw [if_neg h, if_neg h]

theorem pyLowerCode_eq_underscore {n : Nat} (h : pyLowerCode n = 95) : n = 95 := by
  unfold pyLowerCode at h
  by_cases hc : 65 ≤ n ∧ n ≤ 90
  · rw [if_pos hc] at h; omega
  · rwa [if_neg hc] at h

theorem pyLower_pyLower (s : PyStr) : pyLower (pyLower s) = pyLower s := by
  induction s with
  | nil => rfl
  | cons a s ih =>
      show pyLowerCode (pyLowerCode a) :: pyLower (pyLower s)
        = pyLowerCode a :: pyLower s
      rw [pyLowerCode_idem, ih]

theorem mem_of_mem_pyStrip {x : Nat} {s : PyStr} (h : x ∈ pyStrip s) : x ∈ s :=
  (List.dropWhile_suffix isSpaceCode).subset
    ((List.rdropWhile_prefix isSpaceCode (s.dropWhile isSpaceCode)).subset h)

theorem underscore_not_mem_pyLower_pyStrip {s : PyStr} (h : (95 : Nat) ∉ s) :
    (95 : Nat) ∉ pyLower (pyStrip s) := by
  intro hmem
  obtain ⟨c, hc, hfc⟩ := List.mem_map.mp hmem
  exact h (pyLowerCode_eq_underscore hfc ▸ mem_of_mem_pyStrip hc)

theorem replaceCode_roundtrip {s : PyStr} (h : (95 : Nat) ∉ s) :
    replaceCode 95 32 (replaceCode 32 95 s) = s := by
  induction s with
  | nil => rfl
  | cons a s ih =>
      have ha : a ≠ 95 := fun heq => h (heq ▸ List.mem_cons_self a s)
      have hs : (95 : Nat) ∉ s := fun hm => h (List.mem_cons_of_mem a hm)
      show (if (if a = 32 then 95 else a) = 95 then 32 else if a = 32 then 95 else a)
          :: replaceCode 95 32 (replaceCode 32 95 s) = a :: s
      rw [ih hs]
      by_cases h32 : a = 32
      · rw [if_pos h32, if_pos rfl, h32]
      · rw [if_neg h32, if_neg ha]

theorem rdropWhile_map (p : Nat → Bool) (f : Nat → Nat) (l : List Nat) :
    List.rdropWhile p (l.map f) = (List.rdropWhile (p ∘ f) l).map f := by
  unfold List.rdropWhile
  rw [← List.map_reverse, List.dropWhile_map, ← List.map_reverse]

theorem pyStrip_pyLower_comm (s : PyStr) : pyStrip (pyLower s) = pyLower (pyStrip s) := by
  have hfun : (isSpaceCode ∘ pyLowerCode) = isSpaceCode := funext isSpaceCode_pyLowerCode
  unfold pyStrip pyLower
  rw [List.dropWhile_map, rdropWhile_map, hfun]

theorem dropWhile_pyStrip (s : PyStr) :
    (pyStrip s).dropWhile isSpaceCode = pyStrip s := by
  obtain ⟨tail, happ⟩ :=
    List.rdropWhile_prefix isSpaceCode (s.dropWhile isSpaceCode)
  cases hsp : pyStrip s with
  | nil => rfl
  | cons x xs =>
      unfold pyStrip at hsp
      rw [hsp] at happ
      have hpos : 0 < (s.dropWhile isSpaceCode).length := by
        rw [← happ]
        simp
      have hx : ¬ isSpaceCode ((s.dropWhile isSpaceCode).get ⟨0, hpos⟩) :=
        List.dropWhile_get_zero_not isSpaceCode s hpos
      have hget : (s.dropWhile isSpaceCode).get ⟨0, hpos⟩ = x := by
        have hcons : s.dropWhile isSpaceCode = x :: (xs ++ tail) := by
          rw [← happ, List.cons_append]
        rw [List.get_of_eq hcons]
        rfl
      rw [hget] at hx
      rw [List.dropWhile_cons, if_neg hx]

theorem pyStrip_idem (s : PyStr) : pyStrip (pyStrip s) = pyStrip s := by
  show List.rdropWhile isSpaceCode ((pyStrip s).dropWhile isSpaceCode) = pyStrip s
  rw [dropWhile_pyStrip]
  show List.rdropWhile isSpaceCode
    (List.rdropWhile isSpaceCode (s.dropWhile isSpaceCode)) = _
  rw [List.rdropWhile_idempotent]
  rfl

theorem rsplitLast_of_not_mem {sep : Nat} {s : PyStr} (h : sep ∉ s) :
    rsplitLast sep s = none := by
  induction s with
  | nil => rfl
  | cons c cs ih =>
      have hc : c ≠ sep := fun heq => h (heq ▸ List.mem_cons_self c cs)
      have hcs : sep ∉ cs := fun hm => h (List.mem_cons_of_mem c hm)
      unfold rsplitLast
      rw [ih hcs]
      simp [fun heq => hc heq]

theorem rsplitLast_append_last {sep : Nat} (a : PyStr) {r : PyStr} (h : sep ∉ r) :
    rsplitLast sep (a ++ sep :: r) = some (a, r) := by
  induction a with
  | nil =>
      show rsplitLast sep (sep :: r) = some ([], r)
      unfold rsplitLast
      rw [rsplitLast_of_not_mem h]
      simp
  | cons c a ih =>
      show rsplitLast sep (c :: (a ++ sep :: r)) = some (c :: a, r)
      unfold rsplitLast
      rw [ih]

/-! ## Claim C9 -/

/-- Counterexample to C9 as stated: the name "a_b c d" has exactly three
whitespace-separated lowercase tokens and the registration number "1" has
no underscore, yet decoding the encoded folder name yields "a b c d", not
the normalized name "a_b c d" — the loader's `replace("_", " ")` cannot
tell name underscores from the separators the encoder introduced. -/
theorem C9_folder_roundtrip_counterexample :
    (pySplit (pyStrip (strCodes "a_b c d"))).length = 3 ∧
    pyLower (strCodes "a_b c d") = strCodes "a_b c d" ∧
    strCodes "1" ≠ [] ∧ underscoreCode ∉ strCodes "1" ∧
    decodeFolderName (normalize_folder_name (strCodes "a_b c d") (strCodes "1")) ≠
      some (pyLower (pyStrip (strCodes "a_b c d")), pyLower (pyStrip (strCodes "1"))) := by
  refine ⟨by decide, by decide, by decide, by decide, by decide⟩

/-- C9 amended: for every student name with exactly three
whitespace-separated tokens and **no underscore in the name**, and every
non-empty registration number containing no underscore, decoding the
enrollment identifier (splitting at the last underscore and replacing the
remaining underscores with spaces, as the recognition loader does)
recovers exactly the normalized full name and the registration number that
`normalize_folder_name` encoded. -/
theorem C9_folder_roundtrip_amended (name reg : PyStr)
    (hname3 : (pySplit (pyStrip name)).length = 3)
    (hnameu : underscoreCode ∉ name)
    (hreg : reg ≠ []) (hregu : underscoreCode ∉ reg) :
    decodeFolderName (normalize_folder_name name reg) =
      some (pyLower (pyStrip name), pyLower (pyStrip reg)) := by
  have hRu : (95 : Nat) ∉ pyLower (pyStrip reg) :=
    underscore_not_mem_pyLower_pyStrip hregu
  have hform : normalize_folder_name name reg =
      replaceCode 32 95 (pyLower (pyStrip name)) ++ (95 :: pyLower (pyStrip reg)) := by
    unfold normalize_folder_name spaceCode underscoreCode
    rw [List.append_assoc]
    rfl
  rw [hform]
  unfold decodeFolderName underscoreCode
  rw [rsplitLast_append_last _ hRu]
  show some (pyLower (pyStrip (replaceCode 95 32
      (replaceCode 32 95 (pyLower (pyStrip name))))), pyLower (pyStrip reg)) = _
  rw [replaceCode_roundtrip (underscore_not_mem_pyLower_pyStrip hnameu),
      pyStrip_pyLower_comm, pyStrip_idem, pyLower_pyLower]

/-- Witness for C9 amended: the round trip on "ahmad mahmoud kraiem" with
registration number "20201001". -/
theorem C9_folder_roundtrip_witness :
    decodeFolderName (normalize_folder_name (strCodes "ahmad mahmoud kraiem")
        (strCodes "20201001")) =
      some (pyLower (pyStrip (strCodes "ahmad mahmoud kraiem")),
            pyLower (pyStrip (strCodes "20201001"))) :=
  C9_folder_roundtrip_amended (strCodes "ahmad mahmoud kraiem") (strCodes "20201001")
    (by decide) (by decide) (by decide) (by decide)

/-! ## Lemmas about the Absent-record synthesis -/

theorem absentStep_skip {students : StudentTable} {today : PyStr} {acc : AttTable}
    {name : PyStr} (h : hasRecordFor acc name today = true) :
    absentStep students today acc name = acc := by
  simp [absentStep, h]

theorem absentStep_insert {students : StudentTable} {today : PyStr} {acc : AttTable}
    {name : PyStr} (h : hasRecordFor acc name today = false) :
    absentStep students today acc name
      = insertAttendance acc name (regLookup students name) today SENTINEL_TIME ABSENT := by
  simp [absentStep, h]

theorem absent_fold_id (students : StudentTable) (today : PyStr) :
    ∀ (L : List PyStr) (acc : AttTable),
      (∀ n ∈ L, hasRecordFor acc n today = true) →
      L.foldl (absentStep students today) acc = acc := by
  intro L
  induction L with
  | nil => intro acc _; rfl
  | cons n L ih =>
      intro acc hall
      rw [List.foldl_cons, absentStep_skip (hall n (List.mem_cons_self n L))]
      exact ih acc (fun m hm => hall m (List.mem_cons_of_mem n hm))

theorem absent_fold_spec (students : StudentTable) (today : PyStr) :
    ∀ (L : List PyStr) (acc : AttTable), L.Nodup →
      (∀ n ∈ L, hasRecordFor acc n today = false) →
      ∃ new : List AttRecord,
        (L.foldl (absentStep students today) acc).rows = acc.rows ++ new ∧
        new.length = L.length ∧
        (∀ r ∈ new, r.status = ABSENT ∧ r.time = SENTINEL_TIME ∧ r.date = today) ∧
        (∀ n ∈ L, ∃ r ∈ new, r.full_name = n ∧ r.date = today) := by
  intro L
  induction L with
  | nil => intro acc _ _; exact ⟨[], by simp, rfl, by simp, by simp⟩
  | cons n L ih =>
      intro acc hnd hall
      have hn : hasRecordFor acc n today = false := hall n (List.mem_cons_self n L)
      have hrec : ∀ m ∈ L, hasRecordFor
          (insertAttendance acc n (regLookup students n) today SENTINEL_TIME ABSENT)
          m today = false := by
        intro m hm
        rw [hasRecordFor_insertAttendance, hall m (List.mem_cons_of_mem n hm)]
        have hne : (n == m) = false := beq_eq_false_iff_ne.mpr
          (fun heq => (List.nodup_cons.mp hnd).1 (heq ▸ hm))
        rw [hne]
        rfl
      obtain ⟨new, hrows, hlen, hprops, hnames⟩ := ih _ (List.nodup_cons.mp hnd).2 hrec
      refine ⟨⟨acc.nextId, n, regLookup students n, today, SENTINEL_TIME, ABSENT⟩ :: new,
        ?_, ?_, ?_, ?_⟩
      · rw [List.foldl_cons, absentStep_insert hn, hrows]
        show (insertAttendance acc n (regLookup students n) today
            SENTINEL_TIME ABSENT).rows ++ new = _
        unfold insertAttendance
        dsimp only
        rw [List.append_assoc]
        rfl
      · show new.length + 1 = L.length + 1
        rw [hlen]
      · intro r hr
        rcases List.mem_cons.mp hr with heq | hmem
        · rw [heq]
          exact ⟨rfl, rfl, rfl⟩
        · exact hprops r hmem
      · intro m hm
        rcases List.mem_cons.mp hm with heq | hmem
        · exact ⟨_, List.mem_cons_self _ _, heq.symm, rfl⟩
        · obtain ⟨r, hrmem, hr1, hr2⟩ := hnames m hmem
          exact ⟨r, List.mem_cons_of_mem _ hrmem, hr1, hr2⟩

theorem length_filter_not_add {α : Type} (p : α → Bool) (l : List α) :
    (l.filter (fun a => !p a)).length + (l.filter p).length = l.length := by
  induction l with
  | nil => rfl
  | cons a l ih =>
      cases h : p a <;> simp [List.filter_cons, h] <;> omega

theorem get_registered_students_perm (students : StudentTable) :
    (get_registered_students students).Perm (students.rows.map (·.full_name)) := by
  unfold get_registered_students sortNames
  exact List.perm_insertionSort _ _

theorem get_today_present_nodup (t : AttTable) (today : PyStr) :
    (get_today_present t today).Nodup := by
  unfold get_today_present sortNames
  exact (List.perm_insertionSort _ _).nodup_iff.mpr (List.nodup_dedup _)

theorem mem_absent_students {students : StudentTable} {t : AttTable} {today n : PyStr}
    (h : n ∈ absent_students students t today) :
    n ∈ students.rows.map (·.full_name) ∧ n ∉ get_today_present t today := by
  unfold absent_students sortNames at h
  rw [(List.perm_insertionSort _ _).mem_iff] at h
  obtain ⟨hmem, hq⟩ := List.mem_filter.mp h
  refine ⟨(get_registered_students_perm students).mem_iff.mp (List.mem_dedup.mp hmem), ?_⟩
  intro hp
  rw [Bool.not_eq_true'] at hq
  have h1 : (get_today_present t today).contains n = true := List.elem_iff.mpr hp
  rw [h1] at hq
  exact absurd hq (by decide)

theorem absent_students_nodup (students : StudentTable) (t : AttTable) (today : PyStr) :
    (absent_students students t today).Nodup := by
  unfold absent_students sortNames
  exact (List.perm_insertionSort _ _).nodup_iff.mpr ((List.nodup_dedup _).filter _)

theorem absent_students_length {students : StudentTable} {t : AttTable} {today : PyStr}
    (hnodup : (students.rows.map (·.full_name)).Nodup)
    (hsub : ∀ n ∈ get_today_present t today, n ∈ students.rows.map (·.full_name)) :
    (absent_students students t today).length
      = students.rows.length - (get_today_present t today).length := by
  have hperm := get_registered_students_perm students
  have hrnodup : (get_registered_students students).Nodup := hperm.nodup_iff.mpr hnodup
  unfold absent_students sortNames
  rw [(List.perm_insertionSort _ _).length_eq, List.Nodup.dedup hrnodup]
  have hkey := length_filter_not_add
    (fun m => (get_today_present t today).contains m) (get_registered_students students)
  have hfperm : ((get_registered_students students).filter
      (fun m => (get_today_present t today).contains m)).Perm (get_today_present t today) := by
    apply List.perm_of_nodup_nodup_toFinset_eq (hrnodup.filter _)
      (get_today_present_nodup t today)
    ext x
    simp only [List.mem_toFinset, List.mem_filter]
    constructor
    · rintro ⟨_, hc⟩
      exact List.elem_iff.mp hc
    · intro hx
      exact ⟨hperm.mem_iff.mpr (hsub x hx), List.elem_iff.mpr hx⟩
  have hlenreg : (get_registered_students students).length = students.rows.length := by
    rw [hperm.length_eq, List.length_map]
  rw [hfperm.length_eq] at hkey
  omega

/-! ## Claim C3 -/

/-- C3: with S registered students (distinct names), of which exactly
those in `get_today_present` (the P students with a Present record for
today, all registered) have any record for today, one invocation of the
today's-report action appends exactly S − P Absent records, each with the
sentinel time "-", and a second invocation for the same date changes
nothing. -/
theorem C3_absent_synthesis (students : StudentTable) (t : AttTable) (today : PyStr)
    (hnodup : (students.rows.map (·.full_name)).Nodup)
    (hsub : ∀ n ∈ get_today_present t today, n ∈ students.rows.map (·.full_name))
    (habs : ∀ n ∈ students.rows.map (·.full_name),
      n ∉ get_today_present t today → hasRecordFor t n today = false) :
    (∃ new : List AttRecord,
      (todays_report students today t).rows = t.rows ++ new ∧
      new.length = students.rows.length - (get_today_present t today).length ∧
      ∀ r ∈ new, r.status = ABSENT ∧ r.time = SENTINEL_TIME) ∧
    todays_report students today (todays_report students today t)
      = todays_report students today t := by
  have hLrec : ∀ n ∈ absent_students students t today, hasRecordFor t n today = false := by
    intro n hn
    obtain ⟨hmem, hnotp⟩ := mem_absent_students hn
    exact habs n hmem hnotp
  obtain ⟨new, hrows0, hlen, hprops, hnames⟩ := absent_fold_spec students today
    (absent_students students t today) t (absent_students_nodup students t today) hLrec
  have hrows : (todays_report students today t).rows = t.rows ++ new := hrows0
  constructor
  · exact ⟨new, hrows, by rw [hlen, absent_students_length hnodup hsub],
      fun r hr => ⟨(hprops r hr).1, (hprops r hr).2.1⟩⟩
  · have hnil : new.filter (fun r => r.date == today && r.status == PRESENT) = [] := by
      rw [List.filter_eq_nil_iff]
      intro r hr hp
      rw [Bool.and_eq_true, beq_iff_eq, beq_iff_eq] at hp
      have := hp.2
      rw [(hprops r hr).1] at this
      exact absurd this (by decide)
    have hpres : get_today_present (todays_report students today t) today
        = get_today_present t today := by
      unfold get_today_present
      rw [hrows, List.filter_append, hnil, List.append_nil]
    have habsent2 : absent_students students (todays_report students today t) today
        = absent_students students t today := by
      unfold absent_students
      rw [hpres]
    show (absent_students students (todays_report students today t) today).foldl
      (absentStep students today) (todays_report students today t)
      = todays_report students today t
    rw [habsent2]
    apply absent_fold_id
    intro n hn
    obtain ⟨r, hrmem, hrn, hrd⟩ := hnames n hn
    refine hasRecordFor_of_mem ?_ hrn hrd
    rw [hrows]
    exact List.mem_append_right _ hrmem

/-- Witness for C3: registry {a, b}, only a Present today — the report
appends exactly one Absent record (for b) and is idempotent. -/
theorem C3_absent_synthesis_witness :
    (∃ new : List AttRecord,
      (todays_report twoStudentRegistry (strCodes "2025-06-01") onePresentTable).rows
        = onePresentTable.rows ++ new ∧
      new.length = twoStudentRegistry.rows.length
        - (get_today_present onePresentTable (strCodes "2025-06-01")).length ∧
      ∀ r ∈ new, r.status = ABSENT ∧ r.time = SENTINEL_TIME) ∧
    todays_report twoStudentRegistry (strCodes "2025-06-01")
        (todays_report twoStudentRegistry (strCodes "2025-06-01") onePresentTable)
      = todays_report twoStudentRegistry (strCodes "2025-06-01") onePresentTable :=
  C3_absent_synthesis twoStudentRegistry onePresentTable (strCodes "2025-06-01")
    (by decide) (by decide) (by decide)

end Attendance
